import Mathlib

/-!
# Verification of `src/doritostats/analytic_utils.py`

A shallow embedding of the lineup-optimization and luck-index functions of
`analytic_utils.py`, together with theorems settling the specification's
claims about them.

Conventions of the embedding:
* Python floats are embedded as exact rationals (`ℚ`); `np.std`, which takes a
  real square root, lands in `ℝ`.
* Fallible operations (list indexing that can raise, float division that can
  produce a non-finite value) are embedded in `Option`: `none` stands for an
  exception or a non-finite result.
* Python's `sorted` is guaranteed stable; a stable sort's output is uniquely
  determined by the comparison function, so it is embedded as
  `List.insertionSort` (structurally recursive, hence evaluable, and proved
  stable by `List.sublist_insertionSort`), with `reverse=True` / `key=...`
  folded into the relation.
* Week numbering is one-indexed, as in the source: `scores[week - 1]` is the
  score of week `week`.
-/

/-- A fantasy player as used by the lineup functions: `points`,
`eligibleSlots` and `slot_position` are the attributes the source reads.
`pid` stands for the object identity distinguishing distinct players that
happen to have identical stats. -/
structure Player where
  pid : Nat
  points : ℚ
  eligibleSlots : List String
  slot_position : String
deriving DecidableEq, Repr

/-- A team as used by the luck-index functions: per-week scores
(`scores[week - 1]` is week `week`'s score) and per-week opponents, given as
indices into the league's team list (the Python objects hold direct
references; the index embeds the reference). -/
structure Team where
  tid : Nat
  scores : List ℚ
  schedule : List Nat
deriving DecidableEq, Repr

/-- The league snapshot: the ordered team list and
`roster_settings["starting_roster_slots"]`, an insertion-ordered mapping from
slot label to required starting count. -/
structure League where
  teams : List Team
  starting_roster_slots : List (String × Nat)
deriving DecidableEq, Repr

/-- `sorted(..., key=lambda x: x.points, reverse=True)`: `a` may come before
`b` exactly when `b.points ≤ a.points`. -/
def pointsGE (a b : Player) : Prop := b.points ≤ a.points

instance : DecidableRel pointsGE :=
  fun a b => inferInstanceAs (Decidable (b.points ≤ a.points))

instance : IsTotal Player pointsGE := ⟨fun a b => le_total b.points a.points⟩

instance : IsTrans Player pointsGE := ⟨fun _ _ _ h1 h2 => le_trans h2 h1⟩

/-- `sorted(..., reverse=True)` on floats: descending order. -/
def ratGE (a b : ℚ) : Prop := b ≤ a

instance : DecidableRel ratGE := fun a b => inferInstanceAs (Decidable (b ≤ a))

instance : IsTotal ℚ ratGE := ⟨fun a b => le_total b a⟩

instance : IsTrans ℚ ratGE := ⟨fun _ _ _ h1 h2 => le_trans h2 h1⟩

/-- `sorted(keys, key=len)`: ascending label length. -/
def labelLenLE (a b : String × Nat) : Prop := a.1.length ≤ b.1.length

instance : DecidableRel labelLenLE :=
  fun a b => inferInstanceAs (Decidable (a.1.length ≤ b.1.length))

instance : IsTotal (String × Nat) labelLenLE := ⟨fun a b => le_total a.1.length b.1.length⟩

instance : IsTrans (String × Nat) labelLenLE := ⟨fun _ _ _ h1 h2 => le_trans h1 h2⟩

/-- `get_top_players(lineup, slot, n)` (analytic_utils.py:23-31): filter the
lineup to players eligible for `slot`, sort by points descending (stably),
take the first `n`. -/
def get_top_players (lineup : List Player) (slot : String) (n : Nat) : List Player :=
  let eligible_players := lineup.filter (fun p => slot ∈ p.eligibleSlots)
  (eligible_players.insertionSort pointsGE).take n

/-- The loop `for player in best_players: saved_roster.remove(player)`
(analytic_utils.py:48-49); Python's `list.remove` deletes the first
occurrence, i.e. `List.erase`. -/
def removePlayers (pool : List Player) (picked : List Player) : List Player :=
  picked.foldl (fun pl p => pl.erase p) pool

/-- The slot loop of `get_best_lineup` (analytic_utils.py:42-49), recorded
with the players each slot picks: for each slot (already in processing
order) take the top `num_players` remaining players and remove them from the
pool for the later slots. -/
def pickSlots : List (String × Nat) → List Player → List (String × List Player)
  | [], _ => []
  | (slot, num_players) :: rest, pool =>
    let best_players := get_top_players pool slot num_players
    (slot, best_players) :: pickSlots rest (removePlayers pool best_players)

/-- `sorted(league.roster_settings["starting_roster_slots"].keys(), key=len)`
(analytic_utils.py:42): the slot list in ascending order of label length
(stable). The count looked up on line 43 is kept with its key. -/
def sortedSlots (league : League) : List (String × Nat) :=
  league.starting_roster_slots.insertionSort labelLenLE

/-- The `best_lineup` list built by `get_best_lineup` (analytic_utils.py:40-45). -/
def best_lineup (league : League) (lineup : List Player) : List Player :=
  ((pickSlots (sortedSlots league) lineup).map Prod.snd).flatten

/-- `get_best_lineup(league, lineup)` (analytic_utils.py:34-51): the greedy
slot-by-slot assignment; returns `np.sum` of the points of the picked
players. -/
def get_best_lineup (league : League) (lineup : List Player) : ℚ :=
  ((best_lineup league lineup).map (fun player => player.points)).sum

/-- Python's banker's rounding (`round`) of a rational to the nearest
integer, ties to even. -/
def pyRoundInt (x : ℚ) : ℤ :=
  let f := ⌊x⌋
  let r := x - f
  if r < 1/2 then f
  else if 1/2 < r then f + 1
  else if f % 2 = 0 then f else f + 1

/-- `round(x, 2)`: round to 2 decimal places, ties to even. -/
def pyRound2 (x : ℚ) : ℚ := (pyRoundInt (x * 100) : ℚ) / 100

/-- `get_best_trio(league, lineup)` (analytic_utils.py:54-61): points of the
top QB, top RB, top WR and top TE; `[0]` on an empty list raises an
`IndexError`, embedded as `none`. Returns `round(qb + rb + max(wr, te), 2)`. -/
def get_best_trio (league : League) (lineup : List Player) : Option ℚ := do
  let qb ← (get_top_players lineup "QB" 1).head?
  let rb ← (get_top_players lineup "RB" 1).head?
  let wr ← (get_top_players lineup "WR" 1).head?
  let te ← (get_top_players lineup "TE" 1).head?
  return pyRound2 (qb.points + rb.points + max wr.points te.points)

/-- `get_lineup_efficiency(league, lineup)` (analytic_utils.py:64-69):
`real_score / max_score` with no guard on the denominator; when
`max_score == 0` the float division produces a non-finite value (`nan` or
`inf`), embedded as `none`. -/
def get_lineup_efficiency (league : League) (lineup : List Player) : Option ℚ :=
  let max_score := get_best_lineup league lineup
  let real_score :=
    ((lineup.filter (fun player => player.slot_position ∉ (["BE", "IR"] : List String))).map
      (fun player => player.points)).sum
  if max_score = 0 then none else some (real_score / max_score)

/-- `get_weekly_finish(league, team, week)` (analytic_utils.py:72-76): sort
all teams' scores for the week descending and return the 1-based position of
the first occurrence of the team's score (`list.index` raises when the value
is absent; indexing raises when a score list is too short: both are `none`). -/
def get_weekly_finish (league : League) (team : Team) (week : Nat) : Option Nat := do
  let league_scores ← league.teams.mapM (fun tm => tm.scores[week - 1]?)
  let sorted_scores := league_scores.insertionSort ratGE
  let ts ← team.scores[week - 1]?
  let i ← sorted_scores.indexOf? ts
  return i + 1

example : get_top_players
    [⟨0, 5, ["QB"], "QB"⟩, ⟨1, 9, ["QB"], "BE"⟩, ⟨2, 3, ["RB"], "RB"⟩] "QB" 1
    = [⟨1, 9, ["QB"], "BE"⟩] := by decide

example : get_best_lineup ⟨[], [("A", 1), ("B", 1)]⟩
    [⟨0, 10, ["A", "B"], "X"⟩, ⟨1, 5, ["A"], "X"⟩] = 10 := by
  have h : best_lineup ⟨[], [("A", 1), ("B", 1)]⟩
      [⟨0, 10, ["A", "B"], "X"⟩, ⟨1, 5, ["A"], "X"⟩]
      = [⟨0, 10, ["A", "B"], "X"⟩] := by decide
  simp [get_best_lineup, h]

example : get_weekly_finish ⟨[⟨0, [100], []⟩, ⟨1, [90], []⟩, ⟨2, [90], []⟩, ⟨3, [80], []⟩], []⟩
    ⟨1, [90], []⟩ 1 = some 2 := by decide

open List

/-! ## Basic lemmas about `get_top_players` -/

theorem get_top_players_eq (lineup : List Player) (slot : String) (n : Nat) :
    get_top_players lineup slot n =
      ((lineup.filter (fun p => slot ∈ p.eligibleSlots)).insertionSort pointsGE).take n := rfl

theorem mem_of_mem_get_top_players {lineup : List Player} {slot : String} {n : Nat} {p : Player}
    (h : p ∈ get_top_players lineup slot n) : p ∈ lineup ∧ slot ∈ p.eligibleSlots := by
  rw [get_top_players_eq] at h
  have h2 := List.perm_insertionSort pointsGE
    (lineup.filter (fun p => slot ∈ p.eligibleSlots)) |>.mem_iff.mp (List.take_subset _ _ h)
  rw [List.mem_filter] at h2
  exact ⟨h2.1, by simpa using h2.2⟩

theorem get_top_players_subperm (lineup : List Player) (slot : String) (n : Nat) :
    get_top_players lineup slot n <+~ lineup := by
  rw [get_top_players_eq]
  exact ((List.take_sublist _ _).subperm.trans
    (List.perm_insertionSort pointsGE _).subperm).trans (List.filter_sublist _).subperm

theorem nodup_get_top_players {lineup : List Player} (slot : String) (n : Nat)
    (hnd : lineup.Nodup) : (get_top_players lineup slot n).Nodup := by
  obtain ⟨l2, hperm, hsub⟩ := get_top_players_subperm lineup slot n
  exact hperm.nodup_iff.mp (hnd.sublist hsub)

theorem length_get_top_players (lineup : List Player) (slot : String) (n : Nat) :
    (get_top_players lineup slot n).length =
      min n (lineup.filter (fun p => slot ∈ p.eligibleSlots)).length := by
  rw [get_top_players_eq, List.length_take, List.length_insertionSort]

theorem sorted_get_top_players (lineup : List Player) (slot : String) (n : Nat) :
    (get_top_players lineup slot n).Pairwise pointsGE := by
  rw [get_top_players_eq]
  exact (List.sorted_insertionSort pointsGE _).sublist (List.take_sublist _ _)

/-- If a pair is a sublist of a duplicate-free list and the second component
lands in `take n`, the pair is a sublist of `take n`. -/
theorem pair_sublist_take {α : Type} {p q : α} :
    ∀ {l : List α} {n : Nat}, l.Nodup → [p, q] <+ l → q ∈ l.take n → [p, q] <+ l.take n := by
  intro l
  induction l with
  | nil => intro n _ h hq; exact absurd (List.sublist_nil.mp h) (by simp)
  | cons a l ih =>
    intro n hnd h hq
    match n with
    | 0 => simp at hq
    | Nat.succ m =>
      rw [List.take_succ_cons] at hq ⊢
      cases h with
      | cons _ h2 =>
        have hql : q ∈ l := h2.subset (by simp)
        rcases List.mem_cons.mp hq with rfl | hq2
        · exact absurd hql (List.nodup_cons.mp hnd).1
        · exact (ih (List.nodup_cons.mp hnd).2 h2 hq2).cons a
      | cons₂ _ h2 =>
        have hql : q ∈ l := List.singleton_sublist.mp h2
        rcases List.mem_cons.mp hq with rfl | hq2
        · exact absurd hql (List.nodup_cons.mp hnd).1
        · exact (List.singleton_sublist.mpr hq2).cons₂ _

/-- **C8**: `get_top_players` (selectTopPlayers) returns exactly the players
eligible for the slot, ordered by points descending, truncated to the first
`n` (fewer when there are not enough eligible players), and among equal
points the input order of the lineup is preserved (stability). -/
theorem get_top_players_spec (lineup : List Player) (slot : String) (n : Nat)
    (hnd : lineup.Nodup) :
    (∀ p ∈ get_top_players lineup slot n, p ∈ lineup ∧ slot ∈ p.eligibleSlots) ∧
    (get_top_players lineup slot n).length =
      min n (lineup.filter (fun p => slot ∈ p.eligibleSlots)).length ∧
    (get_top_players lineup slot n).Pairwise pointsGE ∧
    (∀ p ∈ lineup.filter (fun p => slot ∈ p.eligibleSlots),
      p ∉ get_top_players lineup slot n →
      ∀ q ∈ get_top_players lineup slot n, p.points ≤ q.points) ∧
    (∀ p q : Player, [p, q] <+ lineup.filter (fun p => slot ∈ p.eligibleSlots) →
      p.points = q.points → q ∈ get_top_players lineup slot n →
      [p, q] <+ get_top_players lineup slot n) := by
  refine ⟨fun p hp => mem_of_mem_get_top_players hp,
    length_get_top_players lineup slot n, sorted_get_top_players lineup slot n, ?_, ?_⟩
  · intro p hp hnp q hq
    have hsorted := List.sorted_insertionSort pointsGE
      (lineup.filter (fun p => slot ∈ p.eligibleSlots))
    have hpmem : p ∈ (lineup.filter (fun p => slot ∈ p.eligibleSlots)).insertionSort pointsGE :=
      (List.perm_insertionSort pointsGE _).mem_iff.mpr hp
    rw [get_top_players_eq] at hnp hq
    rw [← List.take_append_drop n ((lineup.filter
      (fun p => slot ∈ p.eligibleSlots)).insertionSort pointsGE)] at hpmem
    have hpdrop : p ∈ ((lineup.filter
        (fun p => slot ∈ p.eligibleSlots)).insertionSort pointsGE).drop n := by
      rcases List.mem_append.mp hpmem with h | h
      · exact absurd h hnp
      · exact h
    exact hsorted.rel_of_mem_take_of_mem_drop hq hpdrop
  · intro p q hsub hpts hq
    have hpq : [p, q] <+ (lineup.filter
        (fun p => slot ∈ p.eligibleSlots)).insertionSort pointsGE :=
      List.pair_sublist_insertionSort (le_of_eq hpts.symm) hsub
    have hnds : ((lineup.filter
        (fun p => slot ∈ p.eligibleSlots)).insertionSort pointsGE).Nodup :=
      (List.perm_insertionSort pointsGE _).nodup_iff.mpr (hnd.filter _)
    rw [get_top_players_eq] at hq ⊢
    exact pair_sublist_take hnds hpq hq

/-- Witness for C8 at a concrete lineup with a points tie between the two
eligible wide receivers. -/
theorem get_top_players_spec_witness :
    (get_top_players [⟨0, 5, ["WR"], "WR"⟩, ⟨1, 5, ["WR"], "BE"⟩, ⟨2, 7, ["RB"], "RB"⟩]
        "WR" 2).length =
      min 2 (([⟨0, 5, ["WR"], "WR"⟩, ⟨1, 5, ["WR"], "BE"⟩,
        ⟨2, 7, ["RB"], "RB"⟩] : List Player).filter
          (fun p => "WR" ∈ p.eligibleSlots)).length ∧
    (get_top_players [⟨0, 5, ["WR"], "WR"⟩, ⟨1, 5, ["WR"], "BE"⟩, ⟨2, 7, ["RB"], "RB"⟩]
        "WR" 2).Pairwise pointsGE :=
  ⟨(get_top_players_spec _ "WR" 2 (by decide)).2.1,
    (get_top_players_spec _ "WR" 2 (by decide)).2.2.1⟩

/-! ## Lemmas about `get_weekly_finish` -/

theorem indexOf?_cons_rat (a v : ℚ) (S : List ℚ) :
    (a :: S).indexOf? v = if a = v then some 0 else (S.indexOf? v).map (· + 1) := by
  by_cases h : a = v
  · simp [List.indexOf?, List.findIdx?_cons, h]
  · simp [List.indexOf?, List.findIdx?_cons, h, List.findIdx?_start_succ]

/-- In a descending-sorted list, the index of the first occurrence of a
member equals the number of strictly larger elements. -/
theorem indexOf?_of_sorted_descending :
    ∀ {S : List ℚ}, S.Pairwise ratGE → ∀ {v : ℚ}, v ∈ S →
      S.indexOf? v = some (S.countP (fun x => decide (v < x))) := by
  intro S
  induction S with
  | nil => intro _ v hv; simp at hv
  | cons a S ih =>
    intro hs v hv
    have hrel : ∀ x ∈ S, x ≤ a := fun x hx => List.rel_of_pairwise_cons hs hx
    rw [indexOf?_cons_rat, List.countP_cons]
    by_cases hav : a = v
    · subst hav
      have h0 : S.countP (fun x => decide (a < x)) = 0 := by
        rw [List.countP_eq_zero]
        intro x hx
        simpa using not_lt_of_le (hrel x hx)
      simp [h0]
    · have hvS : v ∈ S := by
        rcases List.mem_cons.mp hv with rfl | h
        · exact absurd rfl hav
        · exact h
      have hva : v < a := lt_of_le_of_ne (hrel v hvS) (fun h => hav h.symm)
      rw [if_neg hav, ih hs.of_cons hvS]
      simp [hva]

theorem mem_of_mapM_option {α β : Type} (f : α → Option β) :
    ∀ {l : List α} {bs : List β}, l.mapM f = some bs →
      ∀ {a : α}, a ∈ l → ∀ {b : β}, f a = some b → b ∈ bs := by
  intro l
  induction l with
  | nil => intro bs h a ha; simp at ha
  | cons x l ih =>
    intro bs h a ha b hb
    rw [List.mapM_cons] at h
    cases hfx : f x with
    | none => rw [hfx] at h; simp at h
    | some y =>
      rw [hfx] at h
      cases hml : l.mapM f with
      | none => rw [hml] at h; simp at h
      | some ys =>
        rw [hml] at h
        simp at h
        subst h
        rcases List.mem_cons.mp ha with rfl | hal
        · rw [hfx] at hb
          cases hb
          exact List.mem_cons_self _ _
        · exact List.mem_cons_of_mem _ (ih hml hal hb)

/-- **C4**: `get_weekly_finish` (computeWeeklyFinish) returns
`1 + (number of teams whose score that week is strictly greater)`;
tied scores share a rank. -/
theorem get_weekly_finish_spec (league : League) (team : Team) (week : Nat)
    (ls : List ℚ) (hls : league.teams.mapM (fun tm => tm.scores[week - 1]?) = some ls)
    (hmem : team ∈ league.teams) (ts : ℚ) (hts : team.scores[week - 1]? = some ts) :
    get_weekly_finish league team week = some (1 + ls.countP (fun x => decide (ts < x))) := by
  have htsls : ts ∈ ls := mem_of_mapM_option _ hls hmem hts
  have hsorted : (ls.insertionSort ratGE).Pairwise ratGE := List.sorted_insertionSort ratGE ls
  have hmem2 : ts ∈ ls.insertionSort ratGE := (List.perm_insertionSort ratGE ls).mem_iff.mpr htsls
  have hidx := indexOf?_of_sorted_descending hsorted hmem2
  have hcnt : (ls.insertionSort ratGE).countP (fun x => decide (ts < x))
      = ls.countP (fun x => decide (ts < x)) :=
    (List.perm_insertionSort ratGE ls).countP_eq _
  simp only [get_weekly_finish, Option.pure_def, Option.bind_eq_bind, hls, hts,
    Option.some_bind]
  rw [hidx]
  simp [hcnt, Nat.add_comm]

/-- Witness for C4: league scores `[100, 90, 90, 80]` give ranks 1, 2, 2, 4;
the second tied team's rank is obtained through the theorem. -/
theorem get_weekly_finish_spec_witness :
    get_weekly_finish
        ⟨[⟨0, [100], []⟩, ⟨1, [90], []⟩, ⟨2, [90], []⟩, ⟨3, [80], []⟩], []⟩
        ⟨2, [90], []⟩ 1 = some 2 ∧
    get_weekly_finish
        ⟨[⟨0, [100], []⟩, ⟨1, [90], []⟩, ⟨2, [90], []⟩, ⟨3, [80], []⟩], []⟩
        ⟨0, [100], []⟩ 1 = some 1 ∧
    get_weekly_finish
        ⟨[⟨0, [100], []⟩, ⟨1, [90], []⟩, ⟨2, [90], []⟩, ⟨3, [80], []⟩], []⟩
        ⟨1, [90], []⟩ 1 = some 2 ∧
    get_weekly_finish
        ⟨[⟨0, [100], []⟩, ⟨1, [90], []⟩, ⟨2, [90], []⟩, ⟨3, [80], []⟩], []⟩
        ⟨3, [80], []⟩ 1 = some 4 := by
  refine ⟨?_, by decide, by decide, by decide⟩
  rw [get_weekly_finish_spec
    ⟨[⟨0, [100], []⟩, ⟨1, [90], []⟩, ⟨2, [90], []⟩, ⟨3, [80], []⟩], []⟩
    ⟨2, [90], []⟩ 1 [100, 90, 90, 80] (by decide) (by decide) 90 (by decide)]
  decide

/-! ## Lemmas about the greedy slot loop of `get_best_lineup` -/

theorem removePlayers_eq_diff (picked : List Player) :
    ∀ pool : List Player, removePlayers pool picked = pool.diff picked := by
  induction picked with
  | nil => intro pool; rfl
  | cons a as ih =>
    intro pool
    rw [List.diff_cons, ← ih (pool.erase a)]
    rfl

theorem removePlayers_sublist (pool picked : List Player) :
    removePlayers pool picked <+ pool := by
  rw [removePlayers_eq_diff]
  exact List.diff_sublist pool picked

theorem mem_removePlayers {pool : List Player} (hnd : pool.Nodup) (picked : List Player)
    {x : Player} : x ∈ removePlayers pool picked ↔ x ∈ pool ∧ x ∉ picked := by
  rw [removePlayers_eq_diff]
  exact hnd.mem_diff_iff

theorem pickSlots_mem_pool : ∀ (slots : List (String × Nat)) (pool : List Player),
    ∀ pr ∈ pickSlots slots pool, ∀ p ∈ pr.2, p ∈ pool ∧ pr.1 ∈ p.eligibleSlots := by
  intro slots
  induction slots with
  | nil => intro pool pr hpr; simp [pickSlots] at hpr
  | cons sl rest ih =>
    intro pool pr hpr p hp
    obtain ⟨slot, num_players⟩ := sl
    rcases List.mem_cons.mp hpr with rfl | hpr2
    · exact mem_of_mem_get_top_players hp
    · have h := ih (removePlayers pool (get_top_players pool slot num_players)) pr hpr2 p hp
      exact ⟨(removePlayers_sublist pool _).subset h.1, h.2⟩

theorem pickSlots_fst : ∀ (slots : List (String × Nat)) (pool : List Player),
    (pickSlots slots pool).map Prod.fst = slots.map Prod.fst := by
  intro slots
  induction slots with
  | nil => intro pool; rfl
  | cons sl rest ih =>
    intro pool
    obtain ⟨slot, num_players⟩ := sl
    simp [pickSlots, ih]

theorem pickSlots_counts : ∀ (slots : List (String × Nat)) (pool : List Player),
    List.Forall₂ (fun (sl : String × Nat) (pr : String × List Player) =>
      pr.1 = sl.1 ∧ pr.2.length ≤ sl.2) slots (pickSlots slots pool) := by
  intro slots
  induction slots with
  | nil => intro pool; exact List.Forall₂.nil
  | cons sl rest ih =>
    intro pool
    obtain ⟨slot, num_players⟩ := sl
    refine List.Forall₂.cons ⟨rfl, ?_⟩ (ih _)
    rw [length_get_top_players]
    exact min_le_left _ _

theorem pickSlots_flatten_nodup : ∀ (slots : List (String × Nat)) {pool : List Player},
    pool.Nodup → ((pickSlots slots pool).map Prod.snd).flatten.Nodup := by
  intro slots
  induction slots with
  | nil => intro pool _; simp [pickSlots]
  | cons sl rest ih =>
    intro pool hnd
    obtain ⟨slot, num_players⟩ := sl
    have hpool2 : (removePlayers pool (get_top_players pool slot num_players)).Nodup :=
      hnd.sublist (removePlayers_sublist pool _)
    simp only [pickSlots, List.map_cons, List.flatten_cons, List.nodup_append]
    refine ⟨nodup_get_top_players slot num_players hnd, ih hpool2, ?_⟩
    intro x hx hy
    obtain ⟨l2, hl2, hxl2⟩ := List.mem_flatten.mp hy
    obtain ⟨pr, hpr, rfl⟩ := List.mem_map.mp hl2
    have hxpool := (pickSlots_mem_pool rest _ pr hpr x hxl2).1
    exact ((mem_removePlayers hnd _).mp hxpool).2 hx


/-- **C3**: `get_best_lineup` (computeBestLineup) processes the starting
roster slots in ascending order of slot-label length; each slot picks at
most its required count, every picked player is eligible for the slot it was
picked for and comes from the lineup, no player is picked twice, and the
returned value is the sum of the picked players' points. -/
theorem get_best_lineup_greedy_spec (league : League) (lineup : List Player)
    (hnd : lineup.Nodup) :
    ((sortedSlots league).map (fun sl => sl.1.length)).Pairwise (· ≤ ·) ∧
    sortedSlots league ~ league.starting_roster_slots ∧
    List.Forall₂ (fun (sl : String × Nat) (pr : String × List Player) =>
      pr.1 = sl.1 ∧ pr.2.length ≤ sl.2) (sortedSlots league)
      (pickSlots (sortedSlots league) lineup) ∧
    (∀ pr ∈ pickSlots (sortedSlots league) lineup, ∀ p ∈ pr.2,
      p ∈ lineup ∧ pr.1 ∈ p.eligibleSlots) ∧
    (best_lineup league lineup).Nodup ∧
    get_best_lineup league lineup
      = ((best_lineup league lineup).map (fun player => player.points)).sum := by
  refine ⟨?_, List.perm_insertionSort labelLenLE _, pickSlots_counts _ _,
    pickSlots_mem_pool _ _, pickSlots_flatten_nodup _ hnd, rfl⟩
  exact (List.sorted_insertionSort labelLenLE league.starting_roster_slots).map _
    (fun _ _ h => h)

/-- Witness for C3 at a concrete two-slot league (a specific slot and a flex
slot) with a two-player lineup. -/
theorem get_best_lineup_greedy_spec_witness :
    (best_lineup ⟨[], [("RB", 1), ("RB/WR/TE", 1)]⟩
      [⟨0, 15, ["RB", "RB/WR/TE"], "RB"⟩, ⟨1, 11, ["WR", "RB/WR/TE"], "BE"⟩]).Nodup ∧
    sortedSlots ⟨[], [("RB", 1), ("RB/WR/TE", 1)]⟩ ~ [("RB", 1), ("RB/WR/TE", 1)] :=
  ⟨(get_best_lineup_greedy_spec ⟨[], [("RB", 1), ("RB/WR/TE", 1)]⟩
      [⟨0, 15, ["RB", "RB/WR/TE"], "RB"⟩, ⟨1, 11, ["WR", "RB/WR/TE"], "BE"⟩]
      (by decide)).2.2.2.2.1,
    (get_best_lineup_greedy_spec ⟨[], [("RB", 1), ("RB/WR/TE", 1)]⟩
      [⟨0, 15, ["RB", "RB/WR/TE"], "RB"⟩, ⟨1, 11, ["WR", "RB/WR/TE"], "BE"⟩]
      (by decide)).2.1⟩

/-! ## Legal assignments and optimality (C1) -/

/-- A legal assignment of players to starting slots, as the specification
describes it: every assigned player comes from the lineup and is eligible
for its slot, no player is used twice, each required slot receives at most
its required count, and only required slots are used. This definition
follows the spec's words; it is the yardstick the greedy optimizer is
compared against. -/
def LegalAssignment (league : League) (lineup : List Player)
    (asg : List (String × Player)) : Prop :=
  (∀ sp ∈ asg, sp.2 ∈ lineup ∧ sp.1 ∈ sp.2.eligibleSlots) ∧
  (asg.map Prod.snd).Nodup ∧
  (∀ sl ∈ league.starting_roster_slots,
    (asg.filter (fun sp => sp.1 = sl.1)).length ≤ sl.2) ∧
  (∀ sp ∈ asg, sp.1 ∈ league.starting_roster_slots.map Prod.fst)

instance (league : League) (lineup : List Player) (asg : List (String × Player)) :
    Decidable (LegalAssignment league lineup asg) := by
  unfold LegalAssignment
  infer_instance

/-- The total points of an assignment. -/
def assignmentPoints (asg : List (String × Player)) : ℚ :=
  (asg.map (fun sp => sp.2.points)).sum

/-- Adding the head of a descending-sorted nonnegative list to a prefix sum
of its tail dominates the next prefix sum of the tail. -/
theorem take_sum_le_cons (a : ℚ) (d : List ℚ) (ha : ∀ x ∈ d, x ≤ a) (ha0 : 0 ≤ a) :
    ∀ n : Nat, (d.take n).sum ≤ ((a :: d).take n).sum := by
  intro n
  match n with
  | 0 => simp
  | Nat.succ k =>
    rw [List.take_succ_cons, List.sum_cons, List.take_succ, List.sum_append]
    have hlast : (d[k]?.toList).sum ≤ a := by
      cases hdk : d[k]? with
      | none => simpa using ha0
      | some x =>
        have := List.getElem?_mem hdk
        simpa using ha x this
    calc (d.take k).sum + (d[k]?.toList).sum ≤ (d.take k).sum + a := by
          exact add_le_add_left hlast _
      _ = a + (d.take k).sum := add_comm _ _

/-- Any sub-multiset of at most `n` elements of a descending-sorted list of
nonnegative rationals has sum at most the sum of the first `n` elements. -/
theorem multiset_sum_le_take_sorted :
    ∀ (d : List ℚ), d.Pairwise ratGE → (∀ x ∈ d, 0 ≤ x) →
      ∀ (n : Nat) (m : Multiset ℚ), m ≤ (d : Multiset ℚ) → Multiset.card m ≤ n →
        m.sum ≤ (d.take n).sum := by
  intro d
  induction d with
  | nil =>
    intro _ _ n m hm _
    rw [show ((([] : List ℚ) : Multiset ℚ)) = 0 from rfl, Multiset.le_zero] at hm
    simp [hm]
  | cons a d ih =>
    intro hs hpos n m hm hcard
    rw [← Multiset.cons_coe] at hm
    have hrel : ∀ x ∈ d, x ≤ a := fun x hx => List.rel_of_pairwise_cons hs hx
    have ha0 : 0 ≤ a := hpos a (List.mem_cons_self a d)
    have hpos2 : ∀ x ∈ d, 0 ≤ x := fun x hx => hpos x (List.mem_cons_of_mem a hx)
    by_cases ham : a ∈ m
    · match n with
      | 0 =>
        rw [Nat.le_zero, Multiset.card_eq_zero] at hcard
        subst hcard
        exact absurd ham (Multiset.not_mem_zero a)
      | Nat.succ k =>
        have hme : m.erase a ≤ (d : Multiset ℚ) := by
          have := Multiset.erase_le_erase a hm
          rwa [Multiset.erase_cons_head] at this
        have hcard2 : Multiset.card (m.erase a) ≤ k := by
          rw [Multiset.card_erase_of_mem ham]
          exact Nat.pred_le_pred hcard
        have hsum := ih hs.of_cons hpos2 k (m.erase a) hme hcard2
        rw [← Multiset.cons_erase ham, Multiset.sum_cons, List.take_succ_cons,
          List.sum_cons]
        exact add_le_add_left hsum a
    · have hmd : m ≤ (d : Multiset ℚ) := by
        rw [Multiset.le_iff_count] at hm ⊢
        intro b
        rcases eq_or_ne b a with rfl | hba
        · simp [Multiset.count_eq_zero_of_not_mem ham]
        · have := hm b
          rwa [Multiset.count_cons_of_ne hba] at this
      exact (ih hs.of_cons hpos2 n m hmd hcard).trans (take_sum_le_cons a d hrel ha0 n)

theorem best_lineup_single_slot (s : String) (n : Nat) (lineup : List Player) :
    best_lineup ⟨[], [(s, n)]⟩ lineup = get_top_players lineup s n := by
  simp [best_lineup, sortedSlots, pickSlots]

/-- **C1 (counterexample)**: the greedy total is NOT optimal over all legal
assignments: with slots `{A:1, B:1}` and a 10-point player eligible for both
slots next to a 5-point player eligible only for `A`, the greedy assignment
scores 10 while a legal assignment scores 15. -/
theorem get_best_lineup_not_optimal_cex :
    LegalAssignment ⟨[], [("A", 1), ("B", 1)]⟩
        [⟨0, 10, ["A", "B"], "X"⟩, ⟨1, 5, ["A"], "X"⟩]
        [("A", ⟨1, 5, ["A"], "X"⟩), ("B", ⟨0, 10, ["A", "B"], "X"⟩)] ∧
    assignmentPoints [("A", ⟨1, 5, ["A"], "X"⟩), ("B", ⟨0, 10, ["A", "B"], "X"⟩)] = 15 ∧
    get_best_lineup ⟨[], [("A", 1), ("B", 1)]⟩
        [⟨0, 10, ["A", "B"], "X"⟩, ⟨1, 5, ["A"], "X"⟩] = 10 ∧
    ¬ assignmentPoints [("A", ⟨1, 5, ["A"], "X"⟩), ("B", ⟨0, 10, ["A", "B"], "X"⟩)] ≤
        get_best_lineup ⟨[], [("A", 1), ("B", 1)]⟩
          [⟨0, 10, ["A", "B"], "X"⟩, ⟨1, 5, ["A"], "X"⟩] := by
  have hbl : get_best_lineup ⟨[], [("A", 1), ("B", 1)]⟩
      [⟨0, 10, ["A", "B"], "X"⟩, ⟨1, 5, ["A"], "X"⟩] = 10 := by
    have h : best_lineup ⟨[], [("A", 1), ("B", 1)]⟩
        [⟨0, 10, ["A", "B"], "X"⟩, ⟨1, 5, ["A"], "X"⟩]
        = [⟨0, 10, ["A", "B"], "X"⟩] := by decide
    simp [get_best_lineup, h]
  have hasg : assignmentPoints
      [("A", ⟨1, 5, ["A"], "X"⟩), ("B", ⟨0, 10, ["A", "B"], "X"⟩)] = 15 := by
    simp [assignmentPoints]
    norm_num
  refine ⟨by decide, hasg, hbl, ?_⟩
  rw [hasg, hbl]
  norm_num

/-- **C1 (amended)**: for a requirement mapping with a single slot and
nonnegative player points, the greedy total dominates every legal
assignment. (The counterexample shows optimality fails once a second slot
shares an eligible player; nonnegativity is needed because a legal
assignment may leave a slot under-filled while greedy always fills up to the
required count.) -/
theorem get_best_lineup_single_slot_optimal (s : String) (n : Nat)
    (lineup : List Player) (asg : List (String × Player))
    (hpos : ∀ p ∈ lineup, 0 ≤ p.points)
    (hleg : LegalAssignment ⟨[], [(s, n)]⟩ lineup asg) :
    assignmentPoints asg ≤ get_best_lineup ⟨[], [(s, n)]⟩ lineup := by
  obtain ⟨helig, hndasg, hcount, hslots⟩ := hleg
  have hall : ∀ sp ∈ asg, sp.1 = s := by
    intro sp hsp
    have := hslots sp hsp
    simpa using this
  have hlen : asg.length ≤ n := by
    have h1 := hcount (s, n) (List.mem_singleton_self _)
    have h2 : asg.filter (fun sp => sp.1 = (s, n).1) = asg :=
      List.filter_eq_self.mpr (fun sp hsp => by simpa using hall sp hsp)
    rwa [h2] at h1
  -- the assigned players, as a sub-multiset of the eligible pool
  have hsubset : asg.map Prod.snd ⊆ lineup.filter (fun p => s ∈ p.eligibleSlots) := by
    intro p hp
    obtain ⟨sp, hsp, rfl⟩ := List.mem_map.mp hp
    have h1 := helig sp hsp
    have h2 := hall sp hsp
    rw [List.mem_filter]
    exact ⟨h1.1, by simpa using h2 ▸ h1.2⟩
  have hsubperm1 : asg.map Prod.snd <+~ lineup.filter (fun p => s ∈ p.eligibleSlots) :=
    List.subperm_of_subset hndasg hsubset
  -- transfer to the sorted pool and to points
  have hperm : (lineup.filter (fun p => s ∈ p.eligibleSlots)) ~
      (lineup.filter (fun p => s ∈ p.eligibleSlots)).insertionSort pointsGE :=
    (List.perm_insertionSort pointsGE _).symm
  have hsubperm2 : asg.map Prod.snd <+~
      (lineup.filter (fun p => s ∈ p.eligibleSlots)).insertionSort pointsGE :=
    hsubperm1.trans hperm.subperm
  have hsubpermpts : (asg.map Prod.snd).map Player.points <+~
      ((lineup.filter (fun p => s ∈ p.eligibleSlots)).insertionSort pointsGE).map
        Player.points := by
    obtain ⟨l2, hl2p, hl2s⟩ := hsubperm2
    exact ⟨l2.map Player.points, hl2p.map _, hl2s.map _⟩
  have hd : (((lineup.filter (fun p => s ∈ p.eligibleSlots)).insertionSort
      pointsGE).map Player.points).Pairwise ratGE :=
    (List.sorted_insertionSort pointsGE _).map _ (fun _ _ h => h)
  have hdpos : ∀ x ∈ ((lineup.filter (fun p => s ∈ p.eligibleSlots)).insertionSort
      pointsGE).map Player.points, 0 ≤ x := by
    intro x hx
    obtain ⟨p, hp, rfl⟩ := List.mem_map.mp hx
    have hp2 : p ∈ lineup.filter (fun p => s ∈ p.eligibleSlots) :=
      (List.perm_insertionSort pointsGE _).mem_iff.mp hp
    exact hpos p (List.mem_filter.mp hp2).1
  have hcard : Multiset.card (((asg.map Prod.snd).map Player.points : List ℚ) :
      Multiset ℚ) ≤ n := by
    simpa using hlen
  have hkey := multiset_sum_le_take_sorted _ hd hdpos n
    (((asg.map Prod.snd).map Player.points : List ℚ) : Multiset ℚ)
    (Multiset.coe_le.mpr hsubpermpts) hcard
  rw [Multiset.sum_coe] at hkey
  have hlhs : assignmentPoints asg = ((asg.map Prod.snd).map Player.points).sum := by
    simp only [assignmentPoints, List.map_map]
    rfl
  have hrhs : get_best_lineup ⟨[], [(s, n)]⟩ lineup =
      ((((lineup.filter (fun p => s ∈ p.eligibleSlots)).insertionSort
        pointsGE).map Player.points).take n).sum := by
    rw [get_best_lineup, best_lineup_single_slot, get_top_players_eq, List.map_take]
  rw [hlhs, hrhs]
  exact hkey

/-- Witness for the amended C1: the greedy total for a single `WR` slot
dominates a concrete legal assignment that picks the weaker receiver. -/
theorem get_best_lineup_single_slot_optimal_witness :
    assignmentPoints [("WR", ⟨1, 4, ["WR"], "BE"⟩)] ≤
      get_best_lineup ⟨[], [("WR", 1)]⟩
        [⟨0, 9, ["WR"], "WR"⟩, ⟨1, 4, ["WR"], "BE"⟩] :=
  get_best_lineup_single_slot_optimal "WR" 1
    [⟨0, 9, ["WR"], "WR"⟩, ⟨1, 4, ["WR"], "BE"⟩]
    [("WR", ⟨1, 4, ["WR"], "BE"⟩)]
    (by intro p hp; fin_cases hp <;> norm_num) (by decide)

/-! ## `get_best_trio` (C7) and `get_lineup_efficiency` (C9) -/

theorem head?_take_one {α : Type} (l : List α) : (l.take 1).head? = l.head? := by
  cases l <;> simp

/-- The head of `get_top_players _ _ 1` carries the maximum points among the
eligible players. -/
theorem head?_get_top_players_eq_max (lineup : List Player) (slot : String) {q : ℚ}
    (hq : q ∈ (lineup.filter (fun p => slot ∈ p.eligibleSlots)).map (fun p => p.points))
    (hmax : ∀ x ∈ (lineup.filter (fun p => slot ∈ p.eligibleSlots)).map
      (fun p => p.points), x ≤ q) :
    ∃ p : Player, (get_top_players lineup slot 1).head? = some p ∧ p.points = q := by
  rw [get_top_players_eq, head?_take_one]
  obtain ⟨pq, hpqf, hpqpts⟩ := List.mem_map.mp hq
  have hpqs : pq ∈ (lineup.filter (fun p => slot ∈ p.eligibleSlots)).insertionSort
      pointsGE := (List.perm_insertionSort pointsGE _).mem_iff.mpr hpqf
  cases hsort : (lineup.filter (fun p => slot ∈ p.eligibleSlots)).insertionSort
      pointsGE with
  | nil => rw [hsort] at hpqs; simp at hpqs
  | cons h t =>
    refine ⟨h, rfl, le_antisymm ?_ ?_⟩
    · -- the head is one of the eligible players, so its points are ≤ q
      have hh : h ∈ lineup.filter (fun p => slot ∈ p.eligibleSlots) :=
        (List.perm_insertionSort pointsGE _).mem_iff.mp (by rw [hsort]; simp)
      exact hmax h.points (List.mem_map.mpr ⟨h, hh, rfl⟩)
    · -- the head dominates the element carrying the maximum
      have hsorted := List.sorted_insertionSort pointsGE
        (lineup.filter (fun p => slot ∈ p.eligibleSlots))
      rw [hsort] at hsorted hpqs
      rcases List.mem_cons.mp hpqs with rfl | hpqt
      · exact le_of_eq hpqpts.symm
      · have := List.rel_of_pairwise_cons hsorted hpqt
        exact hpqpts ▸ this

/-- **C7**: `get_best_trio` (computeBestTrio) returns the top QB points plus
the top RB points plus the larger of the top WR and top TE points, rounded
to two decimals, and fails (raises, embedded as `none`) as soon as one of
the four categories has no eligible player. -/
theorem get_best_trio_spec (league : League) (lineup : List Player) :
    (∀ q r w t : ℚ,
      (q ∈ (lineup.filter (fun p => "QB" ∈ p.eligibleSlots)).map (fun p => p.points) ∧
        ∀ x ∈ (lineup.filter (fun p => "QB" ∈ p.eligibleSlots)).map
          (fun p => p.points), x ≤ q) →
      (r ∈ (lineup.filter (fun p => "RB" ∈ p.eligibleSlots)).map (fun p => p.points) ∧
        ∀ x ∈ (lineup.filter (fun p => "RB" ∈ p.eligibleSlots)).map
          (fun p => p.points), x ≤ r) →
      (w ∈ (lineup.filter (fun p => "WR" ∈ p.eligibleSlots)).map (fun p => p.points) ∧
        ∀ x ∈ (lineup.filter (fun p => "WR" ∈ p.eligibleSlots)).map
          (fun p => p.points), x ≤ w) →
      (t ∈ (lineup.filter (fun p => "TE" ∈ p.eligibleSlots)).map (fun p => p.points) ∧
        ∀ x ∈ (lineup.filter (fun p => "TE" ∈ p.eligibleSlots)).map
          (fun p => p.points), x ≤ t) →
      get_best_trio league lineup = some (pyRound2 (q + r + max w t))) ∧
    ((lineup.filter (fun p => "QB" ∈ p.eligibleSlots) = [] ∨
      lineup.filter (fun p => "RB" ∈ p.eligibleSlots) = [] ∨
      lineup.filter (fun p => "WR" ∈ p.eligibleSlots) = [] ∨
      lineup.filter (fun p => "TE" ∈ p.eligibleSlots) = []) →
      get_best_trio league lineup = none) := by
  constructor
  · intro q r w t hq hr hw ht
    obtain ⟨pq, hpq, hpqe⟩ := head?_get_top_players_eq_max lineup "QB" hq.1 hq.2
    obtain ⟨pr, hpr, hpre⟩ := head?_get_top_players_eq_max lineup "RB" hr.1 hr.2
    obtain ⟨pw, hpw, hpwe⟩ := head?_get_top_players_eq_max lineup "WR" hw.1 hw.2
    obtain ⟨pt, hpt, hpte⟩ := head?_get_top_players_eq_max lineup "TE" ht.1 ht.2
    simp [get_best_trio, hpq, hpr, hpw, hpt, hpqe, hpre, hpwe, hpte]
  · intro hempty
    have hnone : ∀ slot : String, lineup.filter (fun p => slot ∈ p.eligibleSlots) = [] →
        (get_top_players lineup slot 1).head? = none := by
      intro slot h
      rw [get_top_players_eq, h]
      rfl
    rcases hempty with h | h | h | h
    · simp [get_best_trio, hnone _ h]
    all_goals {
      cases hqb : (get_top_players lineup "QB" 1).head? with
      | none => simp [get_best_trio, hqb]
      | some pq =>
        cases hrb : (get_top_players lineup "RB" 1).head? with
        | none => simp [get_best_trio, hqb, hrb]
        | some pr =>
          cases hwr : (get_top_players lineup "WR" 1).head? with
          | none => simp [get_best_trio, hqb, hrb, hwr]
          | some pw =>
            first
            | (exact absurd hrb (by rw [hnone _ h]; simp))
            | (exact absurd hwr (by rw [hnone _ h]; simp))
            | (simp [get_best_trio, hqb, hrb, hwr, hnone _ h])
    }

/-- Witness for C7 at a complete concrete lineup. -/
theorem get_best_trio_spec_witness :
    get_best_trio ⟨[], []⟩
        [⟨0, 20, ["QB"], "QB"⟩, ⟨1, 15, ["RB"], "RB"⟩, ⟨2, 12, ["WR"], "WR"⟩,
          ⟨3, 9, ["TE"], "TE"⟩]
      = some (pyRound2 (20 + 15 + max 12 9)) :=
  (get_best_trio_spec ⟨[], []⟩
      [⟨0, 20, ["QB"], "QB"⟩, ⟨1, 15, ["RB"], "RB"⟩, ⟨2, 12, ["WR"], "WR"⟩,
        ⟨3, 9, ["TE"], "TE"⟩]).1 20 15 12 9
    ⟨by decide, by decide⟩ ⟨by decide, by decide⟩ ⟨by decide, by decide⟩
    ⟨by decide, by decide⟩

/-- **C9**: `get_lineup_efficiency` (computeLineupEfficiency) has no
explicit zero-denominator policy: when the best-lineup total is `0` the
unguarded float division yields a non-finite value (`none` in this
embedding), not a defined result. -/
theorem get_lineup_efficiency_zero_denominator (league : League) (lineup : List Player)
    (h : get_best_lineup league lineup = 0) :
    get_lineup_efficiency league lineup = none := by
  simp [get_lineup_efficiency, h]

/-- Witness for C9: the empty lineup has best-lineup total 0 and no defined
efficiency. -/
theorem get_lineup_efficiency_zero_denominator_witness :
    get_lineup_efficiency ⟨[], []⟩ [] = none :=
  get_lineup_efficiency_zero_denominator ⟨[], []⟩ [] rfl

/-! ## The luck index (analytic_utils.py:105-176) -/

/-- `np.mean` of a float list, as an exact rational. -/
def npMean (l : List ℚ) : ℚ := l.sum / l.length

/-- The population variance `np.var` (mean of squared deviations); `np.std`
is its square root. -/
def npVar (l : List ℚ) : ℚ := npMean (l.map (fun x => (x - npMean l) ^ 2))

/-- `np.std`: the population standard deviation. -/
noncomputable def npStd (l : List ℚ) : ℝ := Real.sqrt ((npVar l : ℚ) : ℝ)

/-- `w_sched = 7` (analytic_utils.py:118). -/
def w_sched : ℚ := 7

/-- `w_team = 2` (analytic_utils.py:119). -/
def w_team : ℚ := 2

/-- `w_opp = 1` (analytic_utils.py:120). -/
def w_opp : ℚ := 1

/-- The schedule-luck branch of `get_weekly_luck_index`
(analytic_utils.py:126-139), as a function of the league size and the two
weekly ranks. -/
def schedule_luck (num_teams rank opp_rank : Nat) : ℚ :=
  if rank < opp_rank then
    w_sched * ((rank : ℚ) - 1) / ((num_teams : ℚ) - 1)
  else if rank > opp_rank then
    -w_sched * ((num_teams : ℚ) - rank) / ((num_teams : ℚ) - 1)
  else if (rank : ℚ) < (num_teams : ℚ) / 2 then
    -w_sched / 2 * ((num_teams : ℚ) - rank - 1) / ((num_teams : ℚ) - 1)
  else
    w_sched / 2 * ((rank : ℚ) - 1) / ((num_teams : ℚ) - 1)

open Classical in
/-- `get_weekly_luck_index(league, team, week)` (analytic_utils.py:105-165):
the schedule-luck term, plus the team z-score adjustment when the team's
standard deviation over weeks `1..week` is nonzero, minus the opponent
z-score adjustment under the same (team-side) gate, all divided by
`np.sum([w_sched, w_team, w_opp])`. `none` embeds an exception (an index
out of range) or the non-finite float produced when the opponent term
divides by a zero opponent standard deviation. -/
noncomputable def get_weekly_luck_index (league : League) (team : Team) (week : Nat) :
    Option ℝ := do
  let oppIdx ← team.schedule[week - 1]?
  let opp ← league.teams[oppIdx]?
  let num_teams := league.teams.length
  let rank ← get_weekly_finish league team week
  let opp_rank ← get_weekly_finish league opp week
  let luck_index : ℚ := schedule_luck num_teams rank opp_rank
  let team_score ← team.scores[week - 1]?
  let team_avg : ℚ := npMean (team.scores.take week)
  let team_std : ℝ := npStd (team.scores.take week)
  let luck2 : ℝ :=
    if team_std ≠ 0 then
      (luck_index : ℝ) + ((team_score : ℝ) - (team_avg : ℝ)) / team_std / 2 * ((w_team : ℚ) : ℝ)
    else (luck_index : ℝ)
  let opp_score ← opp.scores[week - 1]?
  let opp_avg : ℚ := npMean (opp.scores.take week)
  let opp_std : ℝ := npStd (opp.scores.take week)
  if team_std ≠ 0 then
    if opp_std = 0 then none
    else some ((luck2 - ((opp_score : ℝ) - (opp_avg : ℝ)) / opp_std / 2 * ((w_opp : ℚ) : ℝ))
      / (([w_sched, w_team, w_opp].sum : ℚ) : ℝ))
  else
    some (luck2 / (([w_sched, w_team, w_opp].sum : ℚ) : ℝ))

/-- `get_season_luck_indices(league, week)` (analytic_utils.py:168-176): a
mapping initialized to 0 that, for `wk` in `1..week`, adds
`get_weekly_luck_index(league, team, week)` for every team — the source
passes the outer `week`, not the loop variable `wk`. Optional addition
embeds `nan`-poisoning of the float accumulator. -/
noncomputable def get_season_luck_indices (league : League) (week : Nat) :
    List (Team × Option ℝ) :=
  league.teams.map (fun team =>
    (team, (List.range week).foldl
      (fun acc _wk => Option.map₂ (· + ·) acc (get_weekly_luck_index league team week))
      (some 0)))

theorem npVar_nonneg (l : List ℚ) : 0 ≤ npVar l := by
  unfold npVar npMean
  apply div_nonneg
  · apply List.sum_nonneg
    intro x hx
    obtain ⟨y, _, rfl⟩ := List.mem_map.mp hx
    positivity
  · positivity

theorem npStd_eq_zero_iff (l : List ℚ) : npStd l = 0 ↔ npVar l = 0 := by
  unfold npStd
  rw [Real.sqrt_eq_zero']
  constructor
  · intro h
    have h2 : (npVar l : ℝ) ≤ 0 := h
    have h3 : (0 : ℝ) ≤ (npVar l : ℝ) := by exact_mod_cast npVar_nonneg l
    exact_mod_cast le_antisymm h2 h3
  · intro h
    rw [h]
    simp

/-- Case analysis of `get_weekly_luck_index` under successful lookups: the
team-side standard deviation gates both z-score adjustments, and a zero
opponent standard deviation inside the active gate produces no finite
result. -/
theorem get_weekly_luck_index_cases (league : League) (team : Team) (week : Nat)
    (oppIdx : Nat) (opp : Team) (rank opp_rank : Nat) (team_score opp_score : ℚ)
    (h1 : team.schedule[week - 1]? = some oppIdx)
    (h2 : league.teams[oppIdx]? = some opp)
    (h3 : get_weekly_finish league team week = some rank)
    (h4 : get_weekly_finish league opp week = some opp_rank)
    (h5 : team.scores[week - 1]? = some team_score)
    (h6 : opp.scores[week - 1]? = some opp_score) :
    (npStd (team.scores.take week) = 0 →
      get_weekly_luck_index league team week =
        some (((schedule_luck league.teams.length rank opp_rank : ℚ) : ℝ)
          / (([w_sched, w_team, w_opp].sum : ℚ) : ℝ))) ∧
    (npStd (team.scores.take week) ≠ 0 → npStd (opp.scores.take week) = 0 →
      get_weekly_luck_index league team week = none) ∧
    (npStd (team.scores.take week) ≠ 0 → npStd (opp.scores.take week) ≠ 0 →
      get_weekly_luck_index league team week =
        some ((((schedule_luck league.teams.length rank opp_rank : ℚ) : ℝ)
            + ((team_score : ℝ) - ((npMean (team.scores.take week) : ℚ) : ℝ))
              / npStd (team.scores.take week) / 2 * ((w_team : ℚ) : ℝ)
            - ((opp_score : ℝ) - ((npMean (opp.scores.take week) : ℚ) : ℝ))
              / npStd (opp.scores.take week) / 2 * ((w_opp : ℚ) : ℝ))
          / (([w_sched, w_team, w_opp].sum : ℚ) : ℝ))) := by
  refine ⟨?_, ?_, ?_⟩
  · intro h
    simp only [get_weekly_luck_index, Option.pure_def, Option.bind_eq_bind, h1, h2, h3,
      h4, h5, h6, Option.some_bind]
    simp [h]
  · intro h h2s
    simp only [get_weekly_luck_index, Option.pure_def, Option.bind_eq_bind, h1, h2, h3,
      h4, h5, h6, Option.some_bind]
    simp [h, h2s]
  · intro h h2s
    simp only [get_weekly_luck_index, Option.pure_def, Option.bind_eq_bind, h1, h2, h3,
      h4, h5, h6, Option.some_bind]
    simp [h, h2s]

/-- **C6**: in `get_weekly_luck_index`, the team z-score term contributes
exactly 0 whenever the team's standard deviation over weeks `1..week` is
zero (the whole adjustment is skipped, leaving only the schedule term), and
the opponent z-score term is applied if and only if the *team's* standard
deviation is nonzero — the opponent's standard deviation is not the gate. -/
theorem get_weekly_luck_index_gating (league : League) (team : Team) (week : Nat)
    (oppIdx : Nat) (opp : Team) (rank opp_rank : Nat) (team_score opp_score : ℚ)
    (h1 : team.schedule[week - 1]? = some oppIdx)
    (h2 : league.teams[oppIdx]? = some opp)
    (h3 : get_weekly_finish league team week = some rank)
    (h4 : get_weekly_finish league opp week = some opp_rank)
    (h5 : team.scores[week - 1]? = some team_score)
    (h6 : opp.scores[week - 1]? = some opp_score) :
    (npStd (team.scores.take week) = 0 →
      get_weekly_luck_index league team week =
        some (((schedule_luck league.teams.length rank opp_rank : ℚ) : ℝ)
          / (([w_sched, w_team, w_opp].sum : ℚ) : ℝ))) ∧
    (npStd (team.scores.take week) ≠ 0 → npStd (opp.scores.take week) ≠ 0 →
      get_weekly_luck_index league team week =
        some ((((schedule_luck league.teams.length rank opp_rank : ℚ) : ℝ)
            + ((team_score : ℝ) - ((npMean (team.scores.take week) : ℚ) : ℝ))
              / npStd (team.scores.take week) / 2 * ((w_team : ℚ) : ℝ)
            - ((opp_score : ℝ) - ((npMean (opp.scores.take week) : ℚ) : ℝ))
              / npStd (opp.scores.take week) / 2 * ((w_opp : ℚ) : ℝ))
          / (([w_sched, w_team, w_opp].sum : ℚ) : ℝ))) :=
  ⟨(get_weekly_luck_index_cases league team week oppIdx opp rank opp_rank team_score
      opp_score h1 h2 h3 h4 h5 h6).1,
    (get_weekly_luck_index_cases league team week oppIdx opp rank opp_rank team_score
      opp_score h1 h2 h3 h4 h5 h6).2.2⟩

/-- Witness for C6: a team with a perfectly flat score history (zero
standard deviation) receives only the schedule term, here 0, even though the
opponent also has a flat history. -/
theorem get_weekly_luck_index_gating_witness :
    get_weekly_luck_index ⟨[⟨0, [100, 100], [1, 1]⟩, ⟨1, [50, 50], [0, 0]⟩], []⟩
      ⟨0, [100, 100], [1, 1]⟩ 2 = some 0 := by
  have hvar : npVar ((⟨0, [100, 100], [1, 1]⟩ : Team).scores.take 2) = 0 := by
    norm_num [npVar, npMean]
  have hstd : npStd ((⟨0, [100, 100], [1, 1]⟩ : Team).scores.take 2) = 0 :=
    (npStd_eq_zero_iff _).mpr hvar
  have h := (get_weekly_luck_index_gating
    ⟨[⟨0, [100, 100], [1, 1]⟩, ⟨1, [50, 50], [0, 0]⟩], []⟩
    ⟨0, [100, 100], [1, 1]⟩ 2 1 ⟨1, [50, 50], [0, 0]⟩ 1 2 100 50
    rfl rfl (by decide) (by decide) rfl rfl).1 hstd
  rw [h]
  norm_num [schedule_luck, w_sched, w_team, w_opp]

/-- **C10**: the opponent z-score division is guarded only by the team's
standard deviation: whenever the team's standard deviation over weeks
`1..week` is nonzero but the opponent's is zero, the opponent term divides
by zero and no finite luck index is returned. -/
theorem get_weekly_luck_index_opp_div_zero (league : League) (team : Team) (week : Nat)
    (oppIdx : Nat) (opp : Team) (rank opp_rank : Nat) (team_score opp_score : ℚ)
    (h1 : team.schedule[week - 1]? = some oppIdx)
    (h2 : league.teams[oppIdx]? = some opp)
    (h3 : get_weekly_finish league team week = some rank)
    (h4 : get_weekly_finish league opp week = some opp_rank)
    (h5 : team.scores[week - 1]? = some team_score)
    (h6 : opp.scores[week - 1]? = some opp_score)
    (hteam : npStd (team.scores.take week) ≠ 0)
    (hopp : npStd (opp.scores.take week) = 0) :
    get_weekly_luck_index league team week = none :=
  (get_weekly_luck_index_cases league team week oppIdx opp rank opp_rank team_score
    opp_score h1 h2 h3 h4 h5 h6).2.1 hteam hopp

/-- Witness for C10: the team's history `[1, 3]` has standard deviation 1,
its opponent's history `[5, 5]` has standard deviation 0, and the luck index
is undefined. -/
theorem get_weekly_luck_index_opp_div_zero_witness :
    get_weekly_luck_index ⟨[⟨0, [1, 3], [1, 1]⟩, ⟨1, [5, 5], [0, 0]⟩], []⟩
      ⟨0, [1, 3], [1, 1]⟩ 2 = none := by
  have hvar : npVar ((⟨0, [1, 3], [1, 1]⟩ : Team).scores.take 2) = 1 := by
    norm_num [npVar, npMean]
  have hstd : npStd ((⟨0, [1, 3], [1, 1]⟩ : Team).scores.take 2) ≠ 0 := by
    rw [npStd, hvar]
    norm_num
  have hvaro : npVar ((⟨1, [5, 5], [0, 0]⟩ : Team).scores.take 2) = 0 := by
    norm_num [npVar, npMean]
  have hstdo : npStd ((⟨1, [5, 5], [0, 0]⟩ : Team).scores.take 2) = 0 :=
    (npStd_eq_zero_iff _).mpr hvaro
  exact get_weekly_luck_index_opp_div_zero
    ⟨[⟨0, [1, 3], [1, 1]⟩, ⟨1, [5, 5], [0, 0]⟩], []⟩
    ⟨0, [1, 3], [1, 1]⟩ 2 1 ⟨1, [5, 5], [0, 0]⟩ 2 1 3 5
    rfl rfl (by decide) (by decide) rfl rfl hstd hstdo

/-- **C5 (counterexample)**: in a 10-team league with both opponents tied at
rank 2, the code's unlucky-tie schedule term is
`-w_sched/2 * (leagueSize - rank - 1)/(leagueSize - 1) = -49/18`, not the
claimed `-w_sched/2 * (leagueSize - rank)/(leagueSize - 1) = -28/9` (half
the loss term). -/
theorem schedule_luck_tie_cex :
    schedule_luck 10 2 2 = -49/18 ∧
    -w_sched / 2 * ((10 : ℚ) - 2) / ((10 : ℚ) - 1) = -28/9 ∧
    (-49/18 : ℚ) ≠ -28/9 := by
  refine ⟨?_, by norm_num [w_sched], by norm_num⟩
  norm_num [schedule_luck, w_sched]

/-- **C5 (amended)**: on an exact rank tie, the unlucky branch
(`rank < leagueSize/2`) equals `-w_sched/2 * (leagueSize - rank - 1) /
(leagueSize - 1)` — the numerator is one less than half the loss term's —
while the lucky branch equals half the win term exactly. -/
theorem schedule_luck_tie_amended (num_teams rank opp_rank : Nat)
    (heq : rank = opp_rank) :
    ((rank : ℚ) < (num_teams : ℚ) / 2 →
      schedule_luck num_teams rank opp_rank =
        -w_sched / 2 * ((num_teams : ℚ) - rank - 1) / ((num_teams : ℚ) - 1)) ∧
    (¬ (rank : ℚ) < (num_teams : ℚ) / 2 →
      schedule_luck num_teams rank opp_rank =
        (w_sched * ((rank : ℚ) - 1) / ((num_teams : ℚ) - 1)) / 2) := by
  subst heq
  constructor <;> intro h
  · rw [schedule_luck, if_neg (lt_irrefl rank), if_neg (lt_irrefl rank), if_pos h]
  · rw [schedule_luck, if_neg (lt_irrefl rank), if_neg (lt_irrefl rank), if_neg h]
    ring

/-- Witness for the amended C5: ties at rank 2 and at rank 6 of an 8-team
league, one on each side of the median. -/
theorem schedule_luck_tie_amended_witness :
    schedule_luck 8 2 2 = -5/2 ∧ schedule_luck 8 6 6 = 5/2 := by
  constructor
  · rw [(schedule_luck_tie_amended 8 2 2 rfl).1 (by norm_num)]
    norm_num [w_sched]
  · rw [(schedule_luck_tie_amended 8 6 6 rfl).2 (by norm_num)]
    norm_num [w_sched]

/-! ## `get_season_luck_indices` (C2) -/

theorem lookup_map_self {α β : Type} [DecidableEq α] (f : α → β) :
    ∀ (l : List α) (a : α), a ∈ l →
      List.lookup a (l.map (fun x => (x, f x))) = some (f a) := by
  intro l
  induction l with
  | nil => intro a ha; simp at ha
  | cons x l ih =>
    intro a ha
    rw [List.map_cons]
    by_cases hax : a = x
    · subst hax
      exact List.lookup_cons_self
    · rcases List.mem_cons.mp ha with rfl | hal
      · exact absurd rfl hax
      · rw [List.lookup_cons]
        have hbeq : (a == x) = false := by
          simp [hax]
        rw [hbeq]
        exact ih a hal

theorem foldl_oadd_const (x : ℝ) :
    ∀ (n : Nat) (a : ℝ),
      (List.range n).foldl (fun acc _wk => Option.map₂ (· + ·) acc (some x)) (some a)
        = some (a + n * x) := by
  intro n
  induction n with
  | zero => intro a; simp
  | succ k ih =>
    intro a
    rw [List.range_succ, List.foldl_append, ih a]
    simp only [List.foldl_cons, List.foldl_nil, Option.map₂_some_some]
    congr 1
    push_cast
    ring

/-- **C2 (what the code computes)**: `get_season_luck_indices` passes the
outer `week` — not the loop variable — to `get_weekly_luck_index`, so a
team's entry is `week` copies of the week-`week` luck index, not the sum
of the distinct per-week values. -/
theorem get_season_luck_indices_uses_final_week (league : League) (week : Nat)
    (team : Team) (v : ℝ) (hmem : team ∈ league.teams)
    (hv : get_weekly_luck_index league team week = some v) :
    List.lookup team (get_season_luck_indices league week)
      = some (some ((week : ℝ) * v)) := by
  rw [get_season_luck_indices, lookup_map_self _ league.teams team hmem, hv,
    foldl_oadd_const]
  norm_num

/-- Witness for C2: a four-team league over two weeks in which the first
team's weekly luck index is `0` at week 1 and `1/20` at week 2; its
season aggregate up to week 2 is `2 * (1/20)`, not `0 + 1/20`. -/
theorem get_season_luck_indices_uses_final_week_witness :
    List.lookup (⟨0, [1, 3], [1, 1]⟩ : Team)
        (get_season_luck_indices
          ⟨[⟨0, [1, 3], [1, 1]⟩, ⟨1, [4, 6], [0, 0]⟩, ⟨2, [20, 30], [3, 3]⟩,
            ⟨3, [40, 48], [2, 2]⟩], []⟩ 2)
      = some (some ((2 : ℝ) * (1/20))) := by
  have hvar : npVar ((⟨0, [1, 3], [1, 1]⟩ : Team).scores.take 2) = 1 := by
    norm_num [npVar, npMean]
  have hstd : npStd ((⟨0, [1, 3], [1, 1]⟩ : Team).scores.take 2) = 1 := by
    rw [npStd, hvar]
    norm_num
  have hvaro : npVar ((⟨1, [4, 6], [0, 0]⟩ : Team).scores.take 2) = 1 := by
    norm_num [npVar, npMean]
  have hstdo : npStd ((⟨1, [4, 6], [0, 0]⟩ : Team).scores.take 2) = 1 := by
    rw [npStd, hvaro]
    norm_num
  have hv : get_weekly_luck_index
      ⟨[⟨0, [1, 3], [1, 1]⟩, ⟨1, [4, 6], [0, 0]⟩, ⟨2, [20, 30], [3, 3]⟩,
        ⟨3, [40, 48], [2, 2]⟩], []⟩ (⟨0, [1, 3], [1, 1]⟩ : Team) 2 = some (1/20) := by
    have h := (get_weekly_luck_index_cases
      ⟨[⟨0, [1, 3], [1, 1]⟩, ⟨1, [4, 6], [0, 0]⟩, ⟨2, [20, 30], [3, 3]⟩,
        ⟨3, [40, 48], [2, 2]⟩], []⟩
      ⟨0, [1, 3], [1, 1]⟩ 2 1 ⟨1, [4, 6], [0, 0]⟩ 4 3 3 6
      rfl rfl (by decide) (by decide) rfl rfl).2.2
      (by rw [hstd]; norm_num) (by rw [hstdo]; norm_num)
    rw [h, hstd, hstdo]
    norm_num [schedule_luck, npMean, w_sched, w_team, w_opp]
  exact get_season_luck_indices_uses_final_week _ 2 _ (1/20) (by decide) hv
